import Mathlib

/-!
Verification development for the portdoc ingestion / RAG pipeline.

Each Python function relevant to the frozen claims is embedded shallowly:
strings become lists of characters, index-driven while loops become
recursive functions (structural in a fuel argument equal to the input
length, so that they evaluate by kernel reduction), database and network
effects become explicit record parameters, and exceptions become
Except / Option results.
-/

namespace PortDoc

/-! ### Math-notation normalizer

Embedding of convert_math_to_latex from apps/api/services/ingestion.py
(lines 152-232); apps/api/services/rag.py lines 38-103 carry a
semantically identical copy of the same function. -/

/-- Characters whose presence makes parenthesized content count as math in
the source check: backslash, caret, underscore and the two curly braces. -/
def isMathChar (c : Char) : Bool :=
  c = '\\' || c = '^' || c = '_' || c = '\x7b' || c = '\x7d'

/-- The has_math test of the source: some math character occurs in the content. -/
def hasMath (l : List Char) : Bool :=
  l.any isMathChar

/-- Lazy search of the regular expressions in the source: find the first
backslash immediately followed by the closing character, returning the
content before it and the remainder after it. -/
def splitAtEsc (close : Char) : List Char → Option (List Char × List Char)
  | [] => none
  | c :: rest =>
    if c = '\\' then
      match rest with
      | [] => none
      | d :: rest2 =>
        if d = close then some ([], rest2)
        else
          match splitAtEsc close rest with
          | some (a, b) => some (c :: a, b)
          | none => none
    else
      match splitAtEsc close rest with
      | some (a, b) => some (c :: a, b)
      | none => none

/-- Fuel-indexed embedding of one re.sub pass of the source: replace every
occurrence of backslash-opn ... backslash-close (lazy, spanning newlines)
by the wrap characters around the enclosed content. Sufficient fuel is the
input length; on exhausted fuel the remaining input is returned unchanged. -/
def reSubF (opn close : Char) (wrap : List Char) : Nat → List Char → List Char
  | 0, l => l
  | _ + 1, [] => []
  | fuel + 1, c :: rest =>
    if c = '\\' then
      match rest with
      | [] => [c]
      | d :: rest2 =>
        if d = opn then
          match splitAtEsc close rest2 with
          | some (content, rest3) =>
            wrap ++ content ++ wrap ++ reSubF opn close wrap fuel rest3
          | none => c :: reSubF opn close wrap fuel (d :: rest2)
        else c :: reSubF opn close wrap fuel (d :: rest2)
    else c :: reSubF opn close wrap fuel rest

/-- One re.sub pass of the source, with the fuel set to the input length. -/
def reSub (opn close : Char) (wrap : List Char) (l : List Char) : List Char :=
  reSubF opn close wrap l.length l

/-- The dollar-skipping step of find_and_replace_paren_math: after an opening
dollar, copy characters until the next dollar (inclusive when present) and
return the copied span together with the remainder. -/
def takeThroughDollar : List Char → List Char × List Char
  | [] => ([], [])
  | c :: rest =>
    if c = '$' then ([c], rest)
    else
      let p := takeThroughDollar rest
      (c :: p.1, p.2)

/-- The depth-counting search of find_and_replace_paren_math: scan for the
parenthesis closing the current group (the call starts at depth one),
returning the enclosed content and the remainder after the closing
parenthesis. -/
def findClose : List Char → Nat → Option (List Char × List Char)
  | [], _ => none
  | c :: rest, depth =>
    let d := if c = '(' then depth + 1 else if c = ')' then depth - 1 else depth
    if d = 0 then some ([], rest)
    else
      match findClose rest d with
      | some (a, b) => some (c :: a, b)
      | none => none

theorem takeThroughDollar_length :
    ∀ l, (takeThroughDollar l).2.length ≤ l.length := by
  intro l
  induction l with
  | nil => simp [takeThroughDollar]
  | cons c rest ih =>
    simp only [takeThroughDollar]
    by_cases hc : c = '$'
    · simp [hc]
    · simp only [hc, if_neg, if_false]
      simpa using Nat.le_succ_of_le ih

theorem findClose_length :
    ∀ l depth a b, findClose l depth = some (a, b) →
      b.length < l.length := by
  intro l
  induction l with
  | nil => intro depth a b h; simp [findClose] at h
  | cons c rest ih =>
    intro depth a b h
    simp only [findClose] at h
    by_cases hz :
        (if c = '(' then depth + 1 else if c = ')' then depth - 1 else depth) = 0
    · rw [if_pos hz] at h
      cases h
      simp
    · rw [if_neg hz] at h
      cases he : findClose rest
          (if c = '(' then depth + 1 else if c = ')' then depth - 1 else depth) with
      | none => rw [he] at h; cases h
      | some p =>
        rw [he] at h
        cases h
        have := ih _ p.1 p.2 he
        simp
        omega

/-- Fuel-indexed embedding of find_and_replace_paren_math: copy
dollar-delimited spans verbatim; at an opening parenthesis whose matching
closing parenthesis exists and whose content contains a math character,
replace the whole group by the content between single dollars; otherwise
copy one character. -/
def parenMathF : Nat → List Char → List Char
  | 0, l => l
  | _ + 1, [] => []
  | fuel + 1, c :: rest =>
    if c = '$' then
      let p := takeThroughDollar rest
      c :: (p.1 ++ parenMathF fuel p.2)
    else if c = '(' then
      match findClose rest 1 with
      | some (content, rest2) =>
        if hasMath content then '$' :: (content ++ '$' :: parenMathF fuel rest2)
        else c :: parenMathF fuel rest
      | none => c :: parenMathF fuel rest
    else c :: parenMathF fuel rest

/-- find_and_replace_paren_math of the source, with the fuel set to the
input length. -/
def parenMathL (l : List Char) : List Char :=
  parenMathF l.length l

/-- The whole normalizer on character lists: display regex pass, inline
regex pass, then the parenthesis scan, in source order. -/
def convertMathL (l : List Char) : List Char :=
  parenMathL (reSub '(' ')' ['$'] (reSub '[' ']' ['$', '$'] l))

/-- convert_math_to_latex of the source, on strings. -/
def convert_math_to_latex (s : String) : String :=
  (convertMathL s.toList).asString

/-- With enough fuel the result of parenMathF does not depend on the exact
fuel value. -/
theorem parenMathF_congr :
    ∀ m n l, l.length ≤ m → l.length ≤ n → parenMathF m l = parenMathF n l := by
  intro m
  induction m with
  | zero =>
    intro n l hm _
    have : l = [] := List.length_eq_zero.mp (Nat.le_zero.mp hm)
    subst this
    cases n <;> simp [parenMathF]
  | succ m ih =>
    intro n l hm hn
    cases l with
    | nil => cases n <;> simp [parenMathF]
    | cons c rest =>
      cases n with
      | zero => simp at hn
      | succ n =>
        simp only [parenMathF]
        have hrest : rest.length ≤ m := by simp at hm; omega
        have hrest' : rest.length ≤ n := by simp at hn; omega
        by_cases hc : c = '$'
        · simp only [hc, if_pos rfl]
          have h2 := takeThroughDollar_length rest
          rw [ih n (takeThroughDollar rest).2 (le_trans h2 hrest) (le_trans h2 hrest')]
          simp
        · simp only [hc, if_false, if_neg]
          by_cases hp : c = '('
          · simp only [hp, if_pos rfl]
            cases he : findClose rest 1 with
            | none => rw [ih n rest hrest hrest']
            | some p =>
              have h2 := findClose_length rest 1 p.1 p.2 he
              by_cases hmth : hasMath p.1
              · simp only [hmth, if_pos]
                rw [ih n p.2 (by omega) (by omega)]
              · simp only [hmth, if_neg, if_false]
                rw [ih n rest hrest hrest']
                simp
          · simp only [hp, if_false, if_neg]
            rw [ih n rest hrest hrest']

/-- A regex pass is the identity on text containing no backslash, for any
amount of fuel: the pattern can only fire at a backslash. -/
theorem reSubF_id (opn close : Char) (wrap : List Char) :
    ∀ n l, (∀ c ∈ l, c ≠ '\\') → reSubF opn close wrap n l = l := by
  intro n
  induction n with
  | zero => intro l _; rfl
  | succ n ih =>
    intro l h
    cases l with
    | nil => rfl
    | cons c rest =>
      have hc : c ≠ '\\' := h c (by simp)
      simp only [reSubF, if_neg hc]
      rw [ih rest (fun d hd => h d (by simp [hd]))]

/-- The wrapped regex pass is the identity on text containing no
backslash. -/
theorem reSub_id (opn close : Char) (wrap : List Char) (l : List Char)
    (h : ∀ c ∈ l, c ≠ '\\') : reSub opn close wrap l = l :=
  reSubF_id opn close wrap l.length l h

/-- The dollar-skipping step consumes exactly the dollar-free span and the
closing dollar. -/
theorem takeThroughDollar_split :
    ∀ a t : List Char, (∀ c ∈ a, c ≠ '$') →
      takeThroughDollar (a ++ '$' :: t) = (a ++ ['$'], t) := by
  intro a
  induction a with
  | nil => intro t _; simp [takeThroughDollar]
  | cons c a ih =>
    intro t h
    have hc : c ≠ '$' := h c (by simp)
    simp only [List.cons_append, takeThroughDollar, if_neg hc, List.append_eq]
    rw [ih t (fun d hd => h d (by simp [hd]))]

/-- The parenthesis scan copies a dollar-delimited span verbatim and
continues after it. -/
theorem parenMathL_dollar_span (a t : List Char) (h : ∀ c ∈ a, c ≠ '$') :
    parenMathL ('$' :: a ++ '$' :: t) = '$' :: a ++ '$' :: parenMathL t := by
  unfold parenMathL
  have hlen : ('$' :: a ++ '$' :: t).length = (a ++ '$' :: t).length + 1 := by
    simp
  rw [hlen]
  simp only [parenMathF, List.cons_append, if_pos rfl, List.append_eq]
  rw [takeThroughDollar_split a t h]
  have hfuel : t.length ≤ (a ++ '$' :: t).length := by simp; omega
  rw [parenMathF_congr (a ++ '$' :: t).length t.length t hfuel (le_refl _)]
  simp

/-! ### Chunker

Embedding of create_chunks from apps/api/services/ingestion.py (lines
265-334). Page texts and sentences are modelled as lists of characters;
the token-counting function (tiktoken in the source, reached through
count_tokens, lines 261-263) is a parameter, matching the spec, which
calls token counting a pluggable dependency of the Chunker. -/

/-- str.strip of the source: drop whitespace from both ends. -/
def trimL (l : List Char) : List Char :=
  ((l.dropWhile Char.isWhitespace).reverse.dropWhile Char.isWhitespace).reverse

/-- The replace call of the source: every newline becomes a space. -/
def replaceNewlines (l : List Char) : List Char :=
  l.map fun c => if c = '\n' then ' ' else c

/-- str.split of the source on the two-character separator dot-space:
leftmost, non-overlapping occurrences. -/
def splitSentences : List Char → List (List Char)
  | [] => [[]]
  | '.' :: ' ' :: rest => [] :: splitSentences rest
  | c :: rest =>
    match splitSentences rest with
    | [] => [[c]]
    | s :: ss => (c :: s) :: ss

/-- Chunk text of the source: sentences joined by dot-space plus a trailing
dot. -/
def joinSentences (ss : List (List Char)) : List Char :=
  List.intercalate ['.', ' '] ss ++ ['.']

/-- One chunk record produced by create_chunks. -/
structure ChunkData where
  page : Nat
  chunk_index : Nat
  text : List Char
  token_count : Nat
deriving DecidableEq

/-- Loop state of create_chunks: emitted chunks, global chunk index, running
sentence list and its running token count. -/
structure ChunkState where
  chunks : List ChunkData
  gidx : Nat
  current : List (List Char)
  curTok : Nat
deriving DecidableEq

/-- The overlap window of create_chunks: walk the closed chunk sentences in
reverse (the argument is the reversed sentence list), keep sentences while
the cumulative token count stays within the overlap budget, and stop at the
first sentence that would exceed it; returns the kept sentences in original
order together with their cumulative token count. -/
def overlapTake (tok : List Char → Nat) (cap : Nat) :
    List (List Char) → Nat → List (List Char) × Nat
  | [], acc => ([], acc)
  | s :: rest, acc =>
    if acc + tok s ≤ cap then
      let p := overlapTake tok cap rest (acc + tok s)
      (p.1 ++ [s], p.2)
    else ([], acc)

/-- Closing a chunk: append the record built from the running sentences and
their accumulated token count, bump the global index, and seed the next
chunk with the overlap window. -/
def flushChunk (tok : List Char → Nat) (overlap page : Nat)
    (st : ChunkState) : ChunkState :=
  let p := overlapTake tok overlap st.current.reverse 0
  { chunks := st.chunks ++ [⟨page, st.gidx, joinSentences st.current, st.curTok⟩]
    gidx := st.gidx + 1
    current := p.1
    curTok := p.2 }

/-- One sentence of the create_chunks loop: skip blank sentences, close the
running chunk when the sentence would push it over the size and the running
chunk is non-empty, then append the sentence. -/
def chunkStep (tok : List Char → Nat) (size overlap page : Nat)
    (st : ChunkState) (sentence : List Char) : ChunkState :=
  let s := trimL sentence
  if s = [] then st
  else
    let stok := tok s
    let st1 :=
      if size < st.curTok + stok ∧ st.current ≠ [] then flushChunk tok overlap page st
      else st
    { st1 with current := st1.current ++ [s], curTok := st1.curTok + stok }

/-- One page of create_chunks: skip blank pages, split into sentence units,
fold the sentence step, and flush any remaining partial chunk. -/
def processPage (tok : List Char → Nat) (size overlap : Nat)
    (acc : List ChunkData × Nat) (page : Nat) (text : List Char) :
    List ChunkData × Nat :=
  if trimL text = [] then acc
  else
    let sentences := splitSentences (replaceNewlines text)
    let st1 := sentences.foldl (chunkStep tok size overlap page) ⟨acc.1, acc.2, [], 0⟩
    if st1.current ≠ [] then
      let st2 := flushChunk tok overlap page st1
      (st2.chunks, st2.gidx)
    else (st1.chunks, st1.gidx)

/-- Page loop of create_chunks: pages enumerated from one, the chunk index
carried globally across pages. -/
def createChunksAux (tok : List Char → Nat) (size overlap : Nat) :
    List (List Char) → Nat → List ChunkData × Nat → List ChunkData × Nat
  | [], _, acc => acc
  | p :: ps, pageNum, acc =>
    createChunksAux tok size overlap ps (pageNum + 1)
      (processPage tok size overlap acc pageNum p)

/-- create_chunks of the source. -/
def create_chunks (tok : List Char → Nat) (size overlap : Nat)
    (pages : List (List Char)) : List ChunkData :=
  (createChunksAux tok size overlap pages 1 ([], 0)).1

/-- A chunk record whose token count is the sum of the individual token
counts of its own sentences, and whose text is those sentences joined back
together. -/
def GoodChunk (tok : List Char → Nat) (c : ChunkData) : Prop :=
  ∃ ss, ss ≠ [] ∧ c.text = joinSentences ss ∧ c.token_count = (ss.map tok).sum

/-- The overlap window accumulates exactly the token counts of the sentences
it keeps. -/
theorem overlapTake_sum (tok : List Char → Nat) (cap : Nat) :
    ∀ l acc, (overlapTake tok cap l acc).2 =
      acc + (((overlapTake tok cap l acc).1.map tok).sum) := by
  intro l
  induction l with
  | nil => intro acc; simp [overlapTake]
  | cons s rest ih =>
    intro acc
    simp only [overlapTake]
    by_cases hle : acc + tok s ≤ cap
    · simp only [if_pos hle]
      have := ih (acc + tok s)
      simp only [List.map_append, List.sum_append, List.map_cons, List.sum_cons]
      simp at this ⊢
      omega
    · simp [if_neg hle]

/-- Loop invariant of the sentence fold: the running token count is the sum
over the running sentences, and every emitted chunk is good. -/
def ChunkInv (tok : List Char → Nat) (st : ChunkState) : Prop :=
  st.curTok = (st.current.map tok).sum ∧ ∀ c ∈ st.chunks, GoodChunk tok c

theorem flushChunk_inv (tok : List Char → Nat) (overlap page : Nat)
    (st : ChunkState) (h : ChunkInv tok st) (hne : st.current ≠ []) :
    ChunkInv tok (flushChunk tok overlap page st) := by
  obtain ⟨htok, hgood⟩ := h
  constructor
  · have := overlapTake_sum tok overlap st.current.reverse 0
    simpa [flushChunk] using this
  · intro c hc
    simp only [flushChunk, List.mem_append, List.mem_singleton] at hc
    rcases hc with hc | hc
    · exact hgood c hc
    · subst hc
      exact ⟨st.current, hne, rfl, htok⟩

theorem chunkStep_inv (tok : List Char → Nat) (size overlap page : Nat)
    (st : ChunkState) (sentence : List Char) (h : ChunkInv tok st) :
    ChunkInv tok (chunkStep tok size overlap page st sentence) := by
  simp only [chunkStep]
  by_cases hs : trimL sentence = []
  · simpa [hs] using h
  · simp only [if_neg hs]
    by_cases hcond : size < st.curTok + tok (trimL sentence) ∧ st.current ≠ []
    · have h1 := flushChunk_inv tok overlap page st h hcond.2
      obtain ⟨htok, hgood⟩ := h1
      refine ⟨?_, ?_⟩
      · simp only [if_pos hcond]
        simp [htok]
      · intro c hc
        simp only [if_pos hcond] at hc
        exact hgood c hc
    · obtain ⟨htok, hgood⟩ := h
      refine ⟨?_, ?_⟩
      · simp only [if_neg hcond]
        simp [htok]
      · intro c hc
        simp only [if_neg hcond] at hc
        exact hgood c hc

theorem foldl_chunkStep_inv (tok : List Char → Nat) (size overlap page : Nat) :
    ∀ (sentences : List (List Char)) (st : ChunkState), ChunkInv tok st →
      ChunkInv tok (sentences.foldl (chunkStep tok size overlap page) st) := by
  intro sentences
  induction sentences with
  | nil => intro st h; simpa using h
  | cons s rest ih =>
    intro st h
    simp only [List.foldl_cons]
    exact ih _ (chunkStep_inv tok size overlap page st s h)

theorem processPage_good (tok : List Char → Nat) (size overlap : Nat)
    (acc : List ChunkData × Nat) (page : Nat) (text : List Char)
    (h : ∀ c ∈ acc.1, GoodChunk tok c) :
    ∀ c ∈ (processPage tok size overlap acc page text).1, GoodChunk tok c := by
  simp only [processPage]
  by_cases ht : trimL text = []
  · simpa [ht] using h
  · simp only [if_neg ht]
    have hinv : ChunkInv tok ⟨acc.1, acc.2, [], 0⟩ := ⟨by simp, h⟩
    have h1 := foldl_chunkStep_inv tok size overlap page
      (splitSentences (replaceNewlines text)) _ hinv
    set st1 := (splitSentences (replaceNewlines text)).foldl
      (chunkStep tok size overlap page) ⟨acc.1, acc.2, [], 0⟩ with hst1
    by_cases hne : st1.current ≠ []
    · have h2 := flushChunk_inv tok overlap page st1 h1 hne
      simpa [if_pos hne] using h2.2
    · simpa [if_neg hne] using h1.2

theorem createChunksAux_good (tok : List Char → Nat) (size overlap : Nat) :
    ∀ (pages : List (List Char)) (pageNum : Nat) (acc : List ChunkData × Nat),
      (∀ c ∈ acc.1, GoodChunk tok c) →
      ∀ c ∈ (createChunksAux tok size overlap pages pageNum acc).1, GoodChunk tok c := by
  intro pages
  induction pages with
  | nil => intro pageNum acc h; simpa [createChunksAux] using h
  | cons p ps ih =>
    intro pageNum acc h
    simp only [createChunksAux]
    exact ih _ _ (processPage_good tok size overlap acc pageNum p h)

/-! ### Ingestion orchestrator

Embedding of _ingest_document_internal from apps/api/services/ingestion.py
(lines 369-573). The document row is a status plus an optional page count;
the storage download, text extraction, chunking, embedding and chunk
persistence calls are fields of a backend record returning Except (an
error value embeds a raised Python exception caught by the surrounding
try block). The run records every status value committed to the database,
in order; the function being total embeds the fact that expected stage
failures are caught and never re-raised to the caller. -/

inductive DocumentStatus
  | UPLOADED
  | PROCESSING
  | READY
  | ERROR
deriving DecidableEq

/-- The mutable part of a Document row touched by ingestion. -/
structure DocState where
  status : DocumentStatus
  pages : Option Nat
deriving DecidableEq

/-- Results of the external calls made by one ingestion run. -/
structure IngestBackend where
  download : Except String (List Nat)
  extract : List Nat → Except String (List (List Char) × Nat)
  chunk : List (List Char) → Except String (List ChunkData)
  embed : List (List Char) → Except String (List (List ℚ))
  persist : Except String Unit

/-- Outcome of one ingestion run on an existing document: the boolean
returned to the caller, the final document row, and the list of status
values committed, in commit order. -/
structure IngestRun where
  success : Bool
  finalDoc : DocState
  commits : List DocumentStatus
deriving DecidableEq

/-- The body of _ingest_document_internal after the document has been
loaded: set PROCESSING unconditionally and commit, then run the stages,
committing ERROR (with the page count recorded in the zero-chunk case) on
any stage failure and READY with the page count on success. -/
def ingestStep (B : IngestBackend) (d : DocState) : IngestRun :=
  match B.download with
  | .error _ => ⟨false, { d with status := .ERROR }, [.PROCESSING, .ERROR]⟩
  | .ok bytes =>
    match B.extract bytes with
    | .error _ => ⟨false, { d with status := .ERROR }, [.PROCESSING, .ERROR]⟩
    | .ok (pages, total) =>
      match B.chunk pages with
      | .error _ => ⟨false, { d with status := .ERROR }, [.PROCESSING, .ERROR]⟩
      | .ok chunks =>
        if chunks = [] then
          ⟨false, { status := .ERROR, pages := some total }, [.PROCESSING, .ERROR]⟩
        else
          match B.embed (chunks.map ChunkData.text) with
          | .error _ => ⟨false, { d with status := .ERROR }, [.PROCESSING, .ERROR]⟩
          | .ok embs =>
            if embs.length ≠ chunks.length then
              ⟨false, { d with status := .ERROR }, [.PROCESSING, .ERROR]⟩
            else
              match B.persist with
              | .error _ => ⟨false, { d with status := .ERROR }, [.PROCESSING, .ERROR]⟩
              | .ok _ =>
                ⟨true, { status := .READY, pages := some total }, [.PROCESSING, .READY]⟩

/-- _ingest_document_internal including the document lookup: an absent
document returns false without committing any status. -/
def ingest_document_internal (B : IngestBackend) (doc : Option DocState) :
    Bool × Option DocState × List DocumentStatus :=
  match doc with
  | none => (false, none, [])
  | some d =>
    let r := ingestStep B d
    (r.success, some r.finalDoc, r.commits)

/-! ### Parameter negotiation and generation orchestrator

Embedding of validate_llm_connection (apps/api/services/rag.py lines
105-157) and generate_response (lines 235-407). A request parameter set
records which of max_tokens, max_completion_tokens and temperature are
present and with which values; the backend is modelled by a predicate
saying which parameter sets it accepts, plus the stream behaviour. -/

/-- The token-limit / temperature parameters of one chat-completion
request. -/
structure Params where
  maxTokens : Option Nat
  maxCompletionTokens : Option Nat
  temperature : Option ℚ
deriving DecidableEq

/-- The dict merge of validate_llm_connection: drop max_tokens from the
base parameters when the combination carries max_completion_tokens, then
overwrite with the keys of the combination. -/
def applyCombo (base c : Params) : Params :=
  let b := if c.maxCompletionTokens.isSome then { base with maxTokens := none } else base
  ⟨if c.maxTokens.isSome then c.maxTokens else b.maxTokens,
    if c.maxCompletionTokens.isSome then c.maxCompletionTokens else b.maxCompletionTokens,
    if c.temperature.isSome then c.temperature else b.temperature⟩

/-- base_params of validate_llm_connection: max_tokens 10 and no other
tuning key. -/
def validateBase : Params := ⟨some 10, none, none⟩

/-- param_combinations of validate_llm_connection, in source order. -/
def validateCombos : List Params :=
  [⟨none, some 10, some (7/10)⟩, ⟨none, some 10, none⟩,
    ⟨some 10, none, some (7/10)⟩, ⟨some 10, none, none⟩]

/-- The four parameter sets validate_llm_connection actually sends, in the
order it tries them. -/
def validateTestParams : List Params :=
  validateCombos.map (applyCombo validateBase)

/-- validate_llm_connection: try the combinations in order, succeed on the
first accepted one, raise when none is accepted. -/
def validate_llm_connection (accepts : Params → Bool) : Except String Unit :=
  match validateTestParams.find? accepts with
  | some _ => .ok ()
  | none => .error "LLM configuration invalid"

/-- param_combinations of generate_response, in source order (the base
parameters of generate_response carry no token-limit key). -/
def genCombos : List Params :=
  [⟨none, some 1500, some (7/10)⟩, ⟨none, some 1500, none⟩,
    ⟨some 1500, none, some (7/10)⟩, ⟨some 1500, none, none⟩]

/-- Backend behaviour seen by one generate_response call: which parameter
sets the chat-completion endpoint accepts, the tokens the stream yields,
whether the stream raises after those tokens, and the exception texts. -/
structure GenBackend where
  accepts : Params → Bool
  tokens : List String
  streamErr : Bool
  lastErrorText : String
  streamErrorText : String

/-- The inline error element that the outer exception handler of
generate_response yields into the output stream. -/
def genErrorMarker (msg : String) : String :=
  "\n\n[Error: Failed to generate response - " ++ msg ++ "]"

/-- Exception text when every parameter combination is rejected, as built
by generate_response before the outer handler formats it. -/
def apiFailMsg (lastError : String) : String :=
  "LLM API error: All LLM API attempts failed. Last error: " ++ lastError

/-- Exception text for a stream that errors mid-flight. -/
def streamFailMsg (t : String) : String :=
  "Streaming error: " ++ t

/-- Observable outcome of one generate_response call: the elements yielded
to the caller in order, the assistant message content committed to the
database (none when nothing was persisted), whether the session was rolled
back, and whether an exception escaped to the caller. -/
structure GenResult where
  yielded : List String
  persisted : Option String
  rolledBack : Bool
  raised : Bool
deriving DecidableEq

/-- generate_response: negotiate a parameter combination; on total failure
the raised exception is caught by the outer handler, which rolls back and
yields one inline error element; on a mid-stream error the tokens already
yielded stay yielded, the session is rolled back and one inline error
element is appended; on success the full response is normalized and
persisted as the assistant message. No path raises to the caller. -/
def generate_response (B : GenBackend) : GenResult :=
  match genCombos.find? B.accepts with
  | none =>
    { yielded := [genErrorMarker (apiFailMsg B.lastErrorText)]
      persisted := none
      rolledBack := true
      raised := false }
  | some _ =>
    if B.streamErr then
      { yielded := B.tokens ++ [genErrorMarker (streamFailMsg B.streamErrorText)]
        persisted := none
        rolledBack := true
        raised := false }
    else
      { yielded := B.tokens
        persisted := some (convert_math_to_latex (String.join B.tokens))
        rolledBack := false
        raised := false }

/-! ### Retriever

Embedding of retrieve_chunks from apps/api/services/rag.py (lines
159-222). The chunks table is a list of rows; the SQL query filters rows
of the document with a non-null embedding (and, when a page filter is
given, a page inside the inclusive range), orders them by ascending cosine
distance to the query embedding, limits to k and reports
similarity = 1 - distance. The distance function computed by the database
is a parameter of the model. -/

/-- One row of the chunks table as seen by the retrieval query. -/
structure ChunkRow where
  id : Nat
  document_id : Nat
  page : Int
  text : String
  embedding : Option (List ℚ)
deriving DecidableEq

/-- One element of the result list of retrieve_chunks. -/
structure Retrieved where
  chunk_id : Nat
  page : Int
  text : String
  similarity : ℚ
deriving DecidableEq

/-- The WHERE clause of the retrieval query. -/
def rowMatches (docId : Nat) (pf : Option (Int × Int)) (r : ChunkRow) : Bool :=
  r.document_id == docId && r.embedding.isSome &&
    (match pf with
     | none => true
     | some (lo, hi) => decide (lo ≤ r.page) && decide (r.page ≤ hi))

/-- The cosine distance computed by the database for one row. -/
def rowDist (dist : List ℚ → List ℚ → ℚ) (qEmb : List ℚ) (r : ChunkRow) : ℚ :=
  dist qEmb (r.embedding.getD [])

/-- Insertion into a list kept in ascending key order. -/
def insertByDist (key : ChunkRow → ℚ) (x : ChunkRow) : List ChunkRow → List ChunkRow
  | [] => [x]
  | y :: ys => if key x ≤ key y then x :: y :: ys else y :: insertByDist key x ys

/-- The ORDER BY of the retrieval query: sort by ascending key (ascending
cosine distance); rows with equal keys may come back in any order, which
insertion sort models with one fixed tie order. -/
def sortByDist (key : ChunkRow → ℚ) : List ChunkRow → List ChunkRow
  | [] => []
  | x :: xs => insertByDist key x (sortByDist key xs)

/-- retrieve_chunks of the source: filter, order by distance, limit k, map
to result records with normalized text and similarity = 1 - distance. -/
def retrieve_chunks (dist : List ℚ → List ℚ → ℚ) (rows : List ChunkRow)
    (docId : Nat) (qEmb : List ℚ) (k : Nat) (pf : Option (Int × Int)) :
    List Retrieved :=
  ((sortByDist (rowDist dist qEmb) (rows.filter (rowMatches docId pf))).take k).map
    fun r =>
      ⟨r.id, r.page, convert_math_to_latex r.text, 1 - rowDist dist qEmb r⟩

theorem insertByDist_mem (key : ChunkRow → ℚ) (x : ChunkRow) :
    ∀ l y, y ∈ insertByDist key x l → y = x ∨ y ∈ l := by
  intro l
  induction l with
  | nil => intro y hy; simpa [insertByDist] using hy
  | cons z zs ih =>
    intro y hy
    simp only [insertByDist] at hy
    by_cases hle : key x ≤ key z
    · rw [if_pos hle] at hy
      rcases List.mem_cons.mp hy with h1 | h1
      · exact Or.inl h1
      · exact Or.inr h1
    · rw [if_neg hle] at hy
      rcases List.mem_cons.mp hy with h1 | h1
      · exact Or.inr (by simp [h1])
      · rcases ih y h1 with h2 | h2
        · exact Or.inl h2
        · exact Or.inr (by simp [h2])

theorem sortByDist_mem (key : ChunkRow → ℚ) :
    ∀ l y, y ∈ sortByDist key l → y ∈ l := by
  intro l
  induction l with
  | nil => intro y hy; simp [sortByDist] at hy
  | cons z zs ih =>
    intro y hy
    simp only [sortByDist] at hy
    rcases insertByDist_mem key z (sortByDist key zs) y hy with h | h
    · simp [h]
    · simp [ih y h]

theorem insertByDist_sorted (key : ChunkRow → ℚ) (x : ChunkRow) :
    ∀ l, List.Pairwise (fun a b => key a ≤ key b) l →
      List.Pairwise (fun a b => key a ≤ key b) (insertByDist key x l) := by
  intro l
  induction l with
  | nil => intro _; simp [insertByDist]
  | cons z zs ih =>
    intro h
    rcases List.pairwise_cons.mp h with ⟨hz, hzs⟩
    simp only [insertByDist]
    by_cases hle : key x ≤ key z
    · rw [if_pos hle]
      refine List.pairwise_cons.mpr ⟨?_, h⟩
      intro b hb
      rcases List.mem_cons.mp hb with h1 | h1
      · rw [h1]; exact hle
      · exact le_trans hle (hz b h1)
    · rw [if_neg hle]
      refine List.pairwise_cons.mpr ⟨?_, ih hzs⟩
      intro b hb
      rcases insertByDist_mem key x zs b hb with h2 | h2
      · rw [h2]; exact le_of_not_le hle
      · exact hz b h2

theorem sortByDist_sorted (key : ChunkRow → ℚ) :
    ∀ l, List.Pairwise (fun a b => key a ≤ key b) (sortByDist key l) := by
  intro l
  induction l with
  | nil => simp [sortByDist]
  | cons z zs ih => exact insertByDist_sorted key z _ ih

/-! ### Embedding client

Embedding of embed_batch from apps/api/services/embeddings.py (lines
70-102): slice the input into consecutive batches of at most batch_size
texts, call the backend once per batch, propagate the first backend error,
and concatenate the per-batch results in order. The recursion carries fuel
equal to the remaining list length so that it evaluates by kernel
reduction; a zero batch size raises in Python (range with step zero), and
the model returns the corresponding error. -/

def embedBatchF (be : List String → Except String (List (List ℚ))) (bs : Nat) :
    Nat → List String → Except String (List (List ℚ))
  | _, [] => .ok []
  | 0, _ :: _ => .ok []
  | fuel + 1, t :: ts =>
    match be ((t :: ts).take bs) with
    | .error e => .error e
    | .ok embs =>
      match embedBatchF be bs fuel ((t :: ts).drop bs) with
      | .error e => .error e
      | .ok rest => .ok (embs ++ rest)

/-- embed_batch of the source. -/
def embed_batch (be : List String → Except String (List (List ℚ))) (bs : Nat)
    (texts : List String) : Except String (List (List ℚ)) :=
  if bs = 0 then .error "ValueError: range() arg 3 must not be zero"
  else embedBatchF be bs texts.length texts

/-- The consecutive batch_size slices of the input, in order. -/
def batchesOfF (bs : Nat) : Nat → List String → List (List String)
  | _, [] => []
  | 0, _ :: _ => []
  | fuel + 1, t :: ts => (t :: ts).take bs :: batchesOfF bs fuel ((t :: ts).drop bs)

/-- The batch slicing of embed_batch as plain data. -/
def batchesOf (bs : Nat) (l : List String) : List (List String) :=
  batchesOfF bs l.length l

theorem batchesOfF_flatten (bs : Nat) (hbs : 0 < bs) :
    ∀ fuel l, l.length ≤ fuel → (batchesOfF bs fuel l).flatten = l := by
  intro fuel
  induction fuel with
  | zero =>
    intro l hl
    have : l = [] := List.length_eq_zero.mp (Nat.le_zero.mp hl)
    subst this
    simp [batchesOfF]
  | succ fuel ih =>
    intro l hl
    cases l with
    | nil => simp [batchesOfF]
    | cons t ts =>
      simp only [batchesOfF, List.flatten_cons]
      rw [ih ((t :: ts).drop bs) (by simp at hl ⊢; omega)]
      exact List.take_append_drop bs (t :: ts)

theorem embedBatchF_ok (be : List String → Except String (List (List ℚ)))
    (bs : Nat) (hbs : 0 < bs) (perBatch : List String → List (List ℚ))
    (hbe : ∀ b, be b = .ok (perBatch b)) :
    ∀ fuel l, l.length ≤ fuel →
      embedBatchF be bs fuel l =
        .ok (((batchesOfF bs fuel l).map perBatch).flatten) := by
  intro fuel
  induction fuel with
  | zero =>
    intro l hl
    have : l = [] := List.length_eq_zero.mp (Nat.le_zero.mp hl)
    subst this
    simp [embedBatchF, batchesOfF]
  | succ fuel ih =>
    intro l hl
    cases l with
    | nil => simp [embedBatchF, batchesOfF]
    | cons t ts =>
      simp only [embedBatchF, batchesOfF, hbe, List.map_cons, List.flatten_cons]
      rw [ih ((t :: ts).drop bs) (by simp at hl ⊢; omega)]

/-- Dot product of two rational vectors. For unit vectors the cosine
distance of pgvector equals one minus the dot product, so on unit vectors
the function fun a b => 1 - dotQ a b is the exact cosine distance. -/
def dotQ (a b : List ℚ) : ℚ :=
  (List.zipWith (fun x y => x * y) a b).sum

/-! ## Claim theorems -/

/-- Claim C1, counterexample: the claimed invariant - once a document is
READY or ERROR no operation, including a repeated ingest call on the same
document id, sets it back to UPLOADED or PROCESSING - is false: ingestion
commits PROCESSING unconditionally (ingestion.py lines 391-397, with no
status guard), and the ingest route re-triggers ingestion for any existing
document, so re-ingesting a READY document commits PROCESSING again. -/
theorem claim_C1_counterexample :
    (⟨DocumentStatus.READY, some 1⟩ : DocState).status = DocumentStatus.READY ∧
    DocumentStatus.PROCESSING ∈
      (ingestStep
        ⟨.error "blob missing", fun _ => .ok ([], 0), fun _ => .ok [],
          fun _ => .ok [], .ok ()⟩
        ⟨DocumentStatus.READY, some 1⟩).commits := by
  decide

/-- Claim C1, amended: within a single ingestion run on an existing
document, the committed statuses are exactly PROCESSING followed by a
terminal READY or ERROR; UPLOADED is never committed and no run ends in
PROCESSING; but a repeated ingest call on the same document starts over at
PROCESSING, whatever the current status is. -/
theorem claim_C1_amended (B : IngestBackend) (d : DocState) :
    (ingestStep B d).commits =
        [DocumentStatus.PROCESSING, DocumentStatus.READY] ∨
      (ingestStep B d).commits =
        [DocumentStatus.PROCESSING, DocumentStatus.ERROR] := by
  unfold ingestStep
  cases hD : B.download with
  | error e => simp
  | ok bytes =>
    cases hX : B.extract bytes with
    | error e => simp [hX]
    | ok pr =>
      obtain ⟨pages, total⟩ := pr
      simp only [hX]
      cases hC : B.chunk pages with
      | error e => simp [hC]
      | ok chunks =>
        simp only [hC]
        by_cases hch : chunks = []
        · simp [hch]
        · simp only [if_neg hch]
          cases hE : B.embed (chunks.map ChunkData.text) with
          | error e => simp [hE]
          | ok embs =>
            simp only [hE]
            by_cases hlen : embs.length = chunks.length
            · cases hP : B.persist with
              | error e => simp [hlen, hP]
              | ok u => simp [hlen, hP]
            · simp [hlen]

/-- Claim C7: every expected ingestion-stage failure - blob download
failure (including a missing blob), text-extraction failure, chunking
failure, embedding failure, embedding-count mismatch, persistence
failure - makes the run return false with final document status ERROR,
never leaving it at PROCESSING. The model being a total function embeds
that these failures are caught locally and never re-raised to the
caller. -/
theorem claim_C7 (B : IngestBackend) (d : DocState) :
    (∀ e, B.download = .error e →
      ingestStep B d =
        ⟨false, { d with status := .ERROR },
          [DocumentStatus.PROCESSING, DocumentStatus.ERROR]⟩) ∧
    (∀ bytes e, B.download = .ok bytes → B.extract bytes = .error e →
      ingestStep B d =
        ⟨false, { d with status := .ERROR },
          [DocumentStatus.PROCESSING, DocumentStatus.ERROR]⟩) ∧
    (∀ bytes pages total e, B.download = .ok bytes →
      B.extract bytes = .ok (pages, total) → B.chunk pages = .error e →
      ingestStep B d =
        ⟨false, { d with status := .ERROR },
          [DocumentStatus.PROCESSING, DocumentStatus.ERROR]⟩) ∧
    (∀ bytes pages total chunks e, B.download = .ok bytes →
      B.extract bytes = .ok (pages, total) → B.chunk pages = .ok chunks →
      chunks ≠ [] → B.embed (chunks.map ChunkData.text) = .error e →
      ingestStep B d =
        ⟨false, { d with status := .ERROR },
          [DocumentStatus.PROCESSING, DocumentStatus.ERROR]⟩) ∧
    (∀ bytes pages total chunks embs, B.download = .ok bytes →
      B.extract bytes = .ok (pages, total) → B.chunk pages = .ok chunks →
      chunks ≠ [] → B.embed (chunks.map ChunkData.text) = .ok embs →
      embs.length ≠ chunks.length →
      ingestStep B d =
        ⟨false, { d with status := .ERROR },
          [DocumentStatus.PROCESSING, DocumentStatus.ERROR]⟩) ∧
    (∀ bytes pages total chunks embs e, B.download = .ok bytes →
      B.extract bytes = .ok (pages, total) → B.chunk pages = .ok chunks →
      chunks ≠ [] → B.embed (chunks.map ChunkData.text) = .ok embs →
      embs.length = chunks.length → B.persist = .error e →
      ingestStep B d =
        ⟨false, { d with status := .ERROR },
          [DocumentStatus.PROCESSING, DocumentStatus.ERROR]⟩) := by
  refine ⟨?_, ?_, ?_, ?_, ?_, ?_⟩
  · intro e hD
    simp [ingestStep, hD]
  · intro bytes e hD hX
    simp [ingestStep, hD, hX]
  · intro bytes pages total e hD hX hC
    simp [ingestStep, hD, hX, hC]
  · intro bytes pages total chunks e hD hX hC hch hE
    simp [ingestStep, hD, hX, hC, hch, hE]
  · intro bytes pages total chunks embs hD hX hC hch hE hlen
    simp [ingestStep, hD, hX, hC, hch, hE, hlen]
  · intro bytes pages total chunks embs e hD hX hC hch hE hlen hP
    simp [ingestStep, hD, hX, hC, hch, hE, hlen, hP]

/-- Claim C7, witness at a concrete run whose blob download fails. -/
theorem claim_C7_witness :
    ingestStep
        ⟨.error "404 object not found", fun _ => .ok ([], 0), fun _ => .ok [],
          fun _ => .ok [], .ok ()⟩
        ⟨DocumentStatus.UPLOADED, none⟩ =
      ⟨false, ⟨DocumentStatus.ERROR, none⟩,
        [DocumentStatus.PROCESSING, DocumentStatus.ERROR]⟩ :=
  (claim_C7 _ _).1 "404 object not found" rfl

/-- Claim C2, counterexample: against a backend rejecting all four
parameter combinations, generate_response does not raise a
ConfigurationError to its caller - the generator completes normally - and
the failure is delivered as content of the output stream: exactly one
inline error element is yielded. -/
theorem claim_C2_counterexample :
    (generate_response
        ⟨fun _ => false, [], false, "connection refused", ""⟩).raised = false ∧
    (generate_response
        ⟨fun _ => false, [], false, "connection refused", ""⟩).yielded =
      ["\n\n[Error: Failed to generate response - LLM API error: All LLM API attempts failed. Last error: connection refused]"] := by
  decide

/-- Claim C2, amended: when the backend rejects all four token-limit and
temperature combinations, generate_response yields no LLM token and
persists nothing, but instead of raising to the caller it rolls back and
yields a single inline error element into the output stream. -/
theorem claim_C2_amended (B : GenBackend)
    (h : ∀ p ∈ genCombos, B.accepts p = false) :
    generate_response B =
      ⟨[genErrorMarker (apiFailMsg B.lastErrorText)], none, true, false⟩ := by
  have hf : genCombos.find? B.accepts = none := by
    rw [List.find?_eq_none]
    intro p hp
    simp [h p hp]
  simp [generate_response, hf]

/-- Claim C2, witness at a backend rejecting every combination. -/
theorem claim_C2_witness :
    generate_response ⟨fun _ => false, ["hi"], false, "boom", ""⟩ =
      ⟨[genErrorMarker (apiFailMsg "boom")], none, true, false⟩ :=
  claim_C2_amended _ (fun _ _ => rfl)

/-- Claim C9, counterexample: when the stream errors mid-flight after one
token was already emitted, generate_response does not persist the partial
assistant turn - it rolls back the session and appends an inline error
element after the emitted tokens. -/
theorem claim_C9_counterexample :
    (generate_response
        ⟨fun _ => true, ["Hello"], true, "", "connection reset"⟩).persisted =
      none ∧
    (generate_response
        ⟨fun _ => true, ["Hello"], true, "", "connection reset"⟩).yielded =
      ["Hello",
        "\n\n[Error: Failed to generate response - Streaming error: connection reset]"] ∧
    (generate_response
        ⟨fun _ => true, ["Hello"], true, "", "connection reset"⟩).rolledBack =
      true := by
  decide

/-- Claim C9, amended: when an accepted parameter combination exists and
the stream errors mid-flight, the already-emitted tokens stay emitted, an
inline error element is appended, the session is rolled back, nothing is
persisted, and no exception escapes: the partial assistant turn is not
stored. -/
theorem claim_C9_amended (B : GenBackend) (hs : B.streamErr = true)
    (ha : (genCombos.find? B.accepts).isSome = true) :
    generate_response B =
      ⟨B.tokens ++ [genErrorMarker (streamFailMsg B.streamErrorText)],
        none, true, false⟩ := by
  obtain ⟨p, hp⟩ := Option.isSome_iff_exists.mp ha
  simp [generate_response, hp, hs]

/-- Claim C9, witness at a backend whose stream errors after one token. -/
theorem claim_C9_witness :
    generate_response ⟨fun _ => true, ["Hello"], true, "", "reset"⟩ =
      ⟨["Hello", genErrorMarker (streamFailMsg "reset")], none, true, false⟩ :=
  claim_C9_amended _ rfl (by decide)

/-- Claim C8: validate_llm_connection tries the four parameter sets in the
fixed source order and stops at the first accepted one; a backend that
accepts exactly the requests carrying max_tokens and neither temperature
nor max_completion_tokens rejects the first three sets and accepts the
fourth (bare max_tokens), so validation succeeds; a backend rejecting all
four makes it raise. -/
theorem claim_C8 (accepts : Params → Bool) :
    ((∀ p, accepts p =
        (p.maxTokens.isSome && p.maxCompletionTokens.isNone &&
          p.temperature.isNone)) →
      validateTestParams.find? accepts = some ⟨some 10, none, none⟩ ∧
      validate_llm_connection accepts = .ok ()) ∧
    ((∀ p, accepts p = false) →
      validate_llm_connection accepts = .error "LLM configuration invalid") := by
  constructor
  · intro h
    have hf : validateTestParams.find? accepts = some ⟨some 10, none, none⟩ := by
      simp [validateTestParams, validateCombos, validateBase, applyCombo,
        List.find?, h]
    exact ⟨hf, by simp [validate_llm_connection, hf]⟩
  · intro h
    have hf : validateTestParams.find? accepts = none := by
      rw [List.find?_eq_none]
      intro p _
      simp [h p]
    simp [validate_llm_connection, hf]

/-- Claim C8, witness: the two backend shapes of the claim, concretely. -/
theorem claim_C8_witness :
    validate_llm_connection
        (fun p =>
          p.maxTokens.isSome && p.maxCompletionTokens.isNone &&
            p.temperature.isNone) = .ok () ∧
    validate_llm_connection (fun _ => false) =
      .error "LLM configuration invalid" :=
  ⟨((claim_C8 _).1 (fun _ => rfl)).2, (claim_C8 _).2 (fun _ => rfl)⟩

/-- Claim C3: the math normalizer is not idempotent, contradicting the
explicit requirement of the spec and the stated intent of the source
comments (avoid double conversion). Evaluation at the failing input: the
first application leaves an unmatched backslash-paren inside a dollar
span, and the second application rewrites it again. -/
theorem claim_C3_eval :
    convert_math_to_latex "\\(a\\(b\\)c\\)" = "$a\\(b$c\\)" ∧
    convert_math_to_latex (convert_math_to_latex "\\(a\\(b\\)c\\)") =
      "$a$b$c$" ∧
    convert_math_to_latex (convert_math_to_latex "\\(a\\(b\\)c\\)") ≠
      convert_math_to_latex "\\(a\\(b\\)c\\)" := by
  decide

/-- Claim C4, counterexample: an input that is exactly one dollar-delimited
span is not copied verbatim: the regex stages of the normalizer rewrite
the backslash-paren delimiters inside the existing dollar span. -/
theorem claim_C4_counterexample :
    convert_math_to_latex "$\\(x\\)$" ≠ "$\\(x\\)$" ∧
    convert_math_to_latex "$\\(x\\)$" = "$$x$$" := by
  decide

/-- Claim C4, amended: the parenthesis-scanning stage does copy a
dollar-delimited span verbatim and continues after it; and on input free
of backslashes (where the regex stages cannot fire) the whole normalizer
also leaves the span unchanged. Only the regex delimiter-conversion
stages, which run before the scan, can rewrite content inside existing
dollar delimiters. -/
theorem claim_C4_amended (a t : List Char) (ha : ∀ c ∈ a, c ≠ '$') :
    parenMathL ('$' :: a ++ '$' :: t) = '$' :: a ++ '$' :: parenMathL t ∧
    ((∀ c ∈ '$' :: a ++ '$' :: t, c ≠ '\\') →
      convertMathL ('$' :: a ++ '$' :: t) = '$' :: a ++ '$' :: convertMathL t) := by
  refine ⟨parenMathL_dollar_span a t ha, ?_⟩
  intro hb
  have hbt : ∀ c ∈ t, c ≠ '\\' := by
    intro c hc
    exact hb c (by simp [hc])
  have h1 : reSub '[' ']' ['$', '$'] ('$' :: a ++ '$' :: t) =
      '$' :: a ++ '$' :: t := reSub_id _ _ _ _ hb
  have h2 : reSub '(' ')' ['$'] ('$' :: a ++ '$' :: t) =
      '$' :: a ++ '$' :: t := reSub_id _ _ _ _ hb
  have h3 : reSub '[' ']' ['$', '$'] t = t := reSub_id _ _ _ _ hbt
  have h4 : reSub '(' ')' ['$'] t = t := reSub_id _ _ _ _ hbt
  unfold convertMathL
  rw [h1, h2, h3, h4, parenMathL_dollar_span a t ha]

/-- Claim C4, witness at a concrete span containing math characters. -/
theorem claim_C4_witness :
    parenMathL ('$' :: "x^".toList ++ '$' :: "(a_b)".toList) =
      '$' :: "x^".toList ++ '$' :: parenMathL "(a_b)".toList :=
  (claim_C4_amended "x^".toList "(a_b)".toList (by decide)).1

/-- Claim C5, counterexample: the token_count of a chunk is not the token
count of its own joined text: with the length tokenizer (the separator
tokens inserted by the dot-space join are counted by the real tokenizer the
same way), the single chunk built from one page stores the sum of the
sentence counts (four), while its text counts seven. -/
theorem claim_C5_counterexample :
    create_chunks List.length 1000 200 ["ab. cd".toList] =
      [⟨1, 0, "ab. cd.".toList, 4⟩] ∧
    ¬ (∀ c ∈ create_chunks List.length 1000 200 ["ab. cd".toList],
        c.token_count = c.text.length) := by
  decide

/-- Claim C5, amended: every chunk emitted by create_chunks carries a token
count computed from its own sentence list - the sum of the per-sentence
token counts of exactly the sentences whose dot-space join (plus trailing
dot) is the chunk text - and not a value inherited from another chunk;
this differs from the token count of the joined text by the separators. -/
theorem claim_C5_amended (tok : List Char → Nat) (size overlap : Nat)
    (pages : List (List Char)) (c : ChunkData)
    (hc : c ∈ create_chunks tok size overlap pages) : GoodChunk tok c :=
  createChunksAux_good tok size overlap pages 1 ([], 0) (by simp) c hc

/-- Claim C5, witness at a concrete page. -/
theorem claim_C5_witness :
    (⟨1, 0, "ab. cd.".toList, 4⟩ : ChunkData) ∈
      create_chunks List.length 1000 200 ["ab. cd".toList] ∧
    GoodChunk List.length ⟨1, 0, "ab. cd.".toList, 4⟩ :=
  ⟨by decide,
    claim_C5_amended List.length 1000 200 ["ab. cd".toList] _ (by decide)⟩

/-- Claim C6, counterexample: strictly descending similarity order fails
when two chunks of the document carry equal embeddings (for instance
identical chunk texts, which chunk overlap can produce): both rows are
returned with equal similarity. The distance function is the exact cosine
distance for the unit vectors used here. -/
theorem claim_C6_counterexample :
    (retrieve_chunks (fun a b => 1 - dotQ a b)
        [⟨1, 5, 2, "t", some [1, 0]⟩, ⟨2, 5, 3, "t", some [1, 0]⟩]
        5 [1, 0] 8 none).length = 2 ∧
    ¬ List.Pairwise (fun a b => b.similarity < a.similarity)
        (retrieve_chunks (fun a b => 1 - dotQ a b)
          [⟨1, 5, 2, "t", some [1, 0]⟩, ⟨2, 5, 3, "t", some [1, 0]⟩]
          5 [1, 0] 8 none) := by
  have hres : retrieve_chunks (fun a b => 1 - dotQ a b)
      [⟨1, 5, 2, "t", some [1, 0]⟩, ⟨2, 5, 3, "t", some [1, 0]⟩]
      5 [1, 0] 8 none =
      [⟨1, 2, convert_math_to_latex "t", 1 - (1 - dotQ [1, 0] [1, 0])⟩,
        ⟨2, 3, convert_math_to_latex "t", 1 - (1 - dotQ [1, 0] [1, 0])⟩] := by
    unfold retrieve_chunks
    have hfil : List.filter (rowMatches 5 none)
        [(⟨1, 5, 2, "t", some [1, 0]⟩ : ChunkRow), ⟨2, 5, 3, "t", some [1, 0]⟩] =
        [⟨1, 5, 2, "t", some [1, 0]⟩, ⟨2, 5, 3, "t", some [1, 0]⟩] := rfl
    rw [hfil]
    have hsort : sortByDist (rowDist (fun a b => 1 - dotQ a b) [1, 0])
        [(⟨1, 5, 2, "t", some [1, 0]⟩ : ChunkRow), ⟨2, 5, 3, "t", some [1, 0]⟩] =
        [⟨1, 5, 2, "t", some [1, 0]⟩, ⟨2, 5, 3, "t", some [1, 0]⟩] := by
      simp only [sortByDist, insertByDist]
      rw [if_pos (show rowDist (fun a b => 1 - dotQ a b) [1, 0]
          (⟨1, 5, 2, "t", some [1, 0]⟩ : ChunkRow) ≤
        rowDist (fun a b => 1 - dotQ a b) [1, 0]
          (⟨2, 5, 3, "t", some [1, 0]⟩ : ChunkRow) from le_refl _)]
    rw [hsort]
    rfl
  rw [hres]
  refine ⟨rfl, ?_⟩
  intro h
  have h1 := (List.pairwise_cons.mp h).1
    ⟨2, 3, convert_math_to_latex "t", 1 - (1 - dotQ [1, 0] [1, 0])⟩ (by simp)
  exact lt_irrefl _ h1

/-- Claim C6, amended: for any distance function computed by the database,
the result of retrieve_chunks has at most k entries, is ordered by
descending (non-increasing: ties are possible) similarity, and every entry
comes from a row of the given document with a non-null embedding and, when
a page filter is supplied, a page inside the inclusive range, with
similarity equal to one minus the distance of that row. -/
theorem claim_C6_amended (dist : List ℚ → List ℚ → ℚ) (rows : List ChunkRow)
    (docId : Nat) (qEmb : List ℚ) (k : Nat) (pf : Option (Int × Int)) :
    (retrieve_chunks dist rows docId qEmb k pf).length ≤ k ∧
    List.Pairwise (fun a b => b.similarity ≤ a.similarity)
      (retrieve_chunks dist rows docId qEmb k pf) ∧
    ∀ r ∈ retrieve_chunks dist rows docId qEmb k pf,
      ∃ row ∈ rows,
        row.document_id = docId ∧ row.embedding.isSome = true ∧
        (∀ lo hi, pf = some (lo, hi) → lo ≤ row.page ∧ row.page ≤ hi) ∧
        r = ⟨row.id, row.page, convert_math_to_latex row.text,
          1 - dist qEmb (row.embedding.getD [])⟩ := by
  refine ⟨?_, ?_, ?_⟩
  · simp only [retrieve_chunks, List.length_map]
    exact List.length_take_le k _
  · simp only [retrieve_chunks]
    rw [List.pairwise_map]
    have hs := sortByDist_sorted (rowDist dist qEmb)
      (rows.filter (rowMatches docId pf))
    have ht := hs.sublist (List.take_sublist k _)
    exact ht.imp (fun hab => by simpa using sub_le_sub_left hab 1)
  · intro r hr
    simp only [retrieve_chunks, List.mem_map] at hr
    obtain ⟨row, hrow, hreq⟩ := hr
    have h1 : row ∈ sortByDist (rowDist dist qEmb)
        (rows.filter (rowMatches docId pf)) :=
      (List.take_sublist k _).subset hrow
    have h2 := sortByDist_mem _ _ row h1
    rw [List.mem_filter] at h2
    obtain ⟨hmem, hm⟩ := h2
    simp only [rowMatches, Bool.and_eq_true, beq_iff_eq] at hm
    refine ⟨row, hmem, hm.1.1, hm.1.2, ?_, ?_⟩
    · intro lo hi hpf
      subst hpf
      simp only [Bool.and_eq_true, decide_eq_true_eq] at hm
      exact hm.2
    · rw [← hreq]
      rfl

/-- Claim C6, witness: the page-filtered conclusion at a concrete store
with one matching and one filtered-out row. -/
theorem claim_C6_witness :
    ∃ row ∈ ([⟨1, 5, 2, "t", some [1, 0]⟩,
        ⟨2, 6, 3, "u", some [0, 1]⟩] : List ChunkRow),
      row.document_id = 5 ∧ row.embedding.isSome = true ∧
      (∀ lo hi, (some ((2 : Int), (4 : Int)) = some (lo, hi)) →
        lo ≤ row.page ∧ row.page ≤ hi) ∧
      (⟨1, 2, convert_math_to_latex "t", 1 - (1 - dotQ [1, 0] [1, 0])⟩ :
          Retrieved) =
        ⟨row.id, row.page, convert_math_to_latex row.text,
          1 - (1 - dotQ [1, 0] (row.embedding.getD []))⟩ :=
  (claim_C6_amended (fun a b => 1 - dotQ a b)
    [⟨1, 5, 2, "t", some [1, 0]⟩, ⟨2, 6, 3, "u", some [0, 1]⟩]
    5 [1, 0] 8 (some (2, 4))).2.2
    ⟨1, 2, convert_math_to_latex "t", 1 - (1 - dotQ [1, 0] [1, 0])⟩
    (List.mem_singleton.mpr rfl)

/-- Claim C10: with a positive batch size and a backend that returns one
embedding list per batch without failing, embed_batch returns the in-order
concatenation of the per-batch results over the consecutive slices of at
most batch_size texts; when the backend returns one embedding per batch
item, the result has exactly one embedding per input text, in input
order. -/
theorem claim_C10 (be : List String → Except String (List (List ℚ)))
    (bs : Nat) (texts : List String) (perBatch : List String → List (List ℚ))
    (hbs : 0 < bs) (hbe : ∀ b, be b = .ok (perBatch b))
    (hlen : ∀ b, (perBatch b).length = b.length) :
    embed_batch be bs texts =
      .ok (((batchesOf bs texts).map perBatch).flatten) ∧
    (((batchesOf bs texts).map perBatch).flatten).length = texts.length := by
  constructor
  · have hbz : ¬ bs = 0 := by omega
    simp only [embed_batch, if_neg hbz]
    exact embedBatchF_ok be bs hbs perBatch hbe texts.length texts (le_refl _)
  · have h1 : ((batchesOf bs texts).map perBatch).map List.length =
        (batchesOf bs texts).map List.length := by
      rw [List.map_map]
      exact List.map_congr_left (fun b _ => hlen b)
    rw [List.length_flatten, h1, ← List.length_flatten, batchesOf,
      batchesOfF_flatten bs hbs texts.length texts (le_refl _)]

/-- Claim C10, witness at a concrete backend embedding every text as the
empty vector, with batch size two over three texts. -/
theorem claim_C10_witness :
    embed_batch (fun b => .ok (b.map (fun _ => ([] : List ℚ)))) 2
        ["a", "b", "c"] =
      .ok (((batchesOf 2 ["a", "b", "c"]).map
        (fun b => b.map (fun _ => ([] : List ℚ)))).flatten) ∧
    (((batchesOf 2 ["a", "b", "c"]).map
        (fun b => b.map (fun _ => ([] : List ℚ)))).flatten).length = 3 :=
  claim_C10 _ 2 ["a", "b", "c"] _ (by decide) (fun _ => rfl)
    (fun b => by simp)

end PortDoc
